import Mathlib

/-!
Verification development for the sato Protobuf/ROS transcoder.

The definitions below are shallow embeddings of the C++ sources:
  * `src/sato/runtime/ros.h`      — the ROS serialization buffer
    (`Buffer::Put`, `Buffer::Get`, `Buffer::FlushZeroes`,
    `Buffer::HasSpaceFor`, `Buffer::Check`, `Read<std::string>`);
  * `src/sato/runtime/vectors.h`  — `PrimitiveVectorField`;
  * `src/sato/runtime/fields.h`   — the scalar field classes;
  * `src/sato/runtime/message.h`  — the `Message` populated flag;
  * `src/sato/compiler/message_gen.cc` — the code emitted for generated
    messages (`ParseProto`, `WriteProto`, `WriteROS`, `ParseROS`,
    `GenerateROSMessage`) and the field-table construction
    (`CompileFields`);
  * `src/sato/compiler/zip_utils.cc`   — `AddFileToZip`.

Machine integers are modelled as `Nat`; byte sequences as `List Nat`
with values below 256.  Fallible operations return `Except`/`Option`.
The Protobuf wire codec (`ProtoBuffer`) is not part of the sources, so
it is modelled from the specification, as marked on each definition.
-/

namespace Sato

/-! ### ROS buffer zero-run compression (src/sato/runtime/ros.h)

`kZeroMarker` and `kMaxZeroes` are the constants at the top of `ros.h`.
A run of zero bytes is written as `kZeroMarker` followed by the count
minus 2; a literal `kZeroMarker` byte is escaped by doubling it.
-/

def kZeroMarker : Nat := 0xfa

def kMaxZeroes : Nat := kZeroMarker + 1

/-- `Buffer::FlushZeroes`: emit the pending run of `z` zero bytes.
A single zero is written literally; a longer run is written as the
marker followed by `z - 2`. -/
def flushZeroes (z : Nat) : List Nat :=
  if z = 0 then []
  else if z = 1 then [0]
  else [kZeroMarker, z - 2]

/-- `Buffer::Put`: the writer state is the bytes emitted so far paired
with the pending count of zeroes (`num_zeroes_`). -/
def putByte (st : List Nat × Nat) (ch : Nat) : List Nat × Nat :=
  if ch = 0 then
    if st.2 = kMaxZeroes then (st.1 ++ flushZeroes st.2, 1)
    else (st.1, st.2 + 1)
  else if ch = kZeroMarker then
    (st.1 ++ flushZeroes st.2 ++ [kZeroMarker, kZeroMarker], 0)
  else
    (st.1 ++ flushZeroes st.2 ++ [ch], 0)

/-- Writing a whole byte sequence with `Buffer::Put` and then calling
`Buffer::FlushZeroes` once, starting from a fresh buffer. -/
def encodePut (l : List Nat) : List Nat :=
  let st := l.foldl putByte ([], 0)
  st.1 ++ flushZeroes st.2

/-- `Buffer::Get`: the reader state is the remaining input paired with
the pending count of zeroes still to deliver (`num_zeroes_`). -/
def getByte : List Nat × Nat → Option (Nat × (List Nat × Nat))
  | (l, d + 1) => some (0, (l, d))
  | ([], 0) => none
  | (c :: rest, 0) =>
    if c = kZeroMarker then
      match rest with
      | [] => none
      | c2 :: r2 =>
        if c2 = kZeroMarker then some (kZeroMarker, (r2, 0))
        else some (0, (r2, c2 + 1))
    else some (c, (rest, 0))

/-- Reading `n` bytes in sequence with `Buffer::Get`. -/
def getBytes : Nat → List Nat × Nat → Option (List Nat × (List Nat × Nat))
  | 0, st => some ([], st)
  | n + 1, st =>
    match getByte st with
    | none => none
    | some (b, st') =>
      match getBytes n st' with
      | none => none
      | some (bs, st'') => some (b :: bs, st'')

/-- Recursive restatement of the `Put` fold: the bytes the buffer holds
after `Put`-ing the list with pending count `z` and flushing at the
end.  Proved equal to the fold in `encodePut_eq_encAux`. -/
def encAux : List Nat → Nat → List Nat
  | [], z => flushZeroes z
  | ch :: rest, z =>
    if ch = 0 then
      if z = kMaxZeroes then flushZeroes z ++ encAux rest 1
      else encAux rest (z + 1)
    else if ch = kZeroMarker then
      flushZeroes z ++ ([kZeroMarker, kZeroMarker] ++ encAux rest 0)
    else
      flushZeroes z ++ ([ch] ++ encAux rest 0)

/-! ### ROS read/write buffer bookkeeping (src/sato/runtime/ros.h) -/

/-- The error conditions of the ROS codec (`absl::InternalError` in the
source; the spec's taxonomy names them `Truncated` and `Overflow`). -/
inductive RosError
  | truncated
  | overflow
deriving DecidableEq, Repr

/-- A read-side `Buffer` borrowed over caller bytes: the data and the
cursor (`addr_ - start_`). -/
structure RBuf where
  data : List Nat
  pos : Nat
deriving DecidableEq, Repr

/-- `Buffer::Check(n)`: true iff `addr_ + n <= end_`. -/
def RBuf.check (b : RBuf) (n : Nat) : Bool :=
  decide (b.pos + n ≤ b.data.length)

/-- The 4-byte little-endian word at the cursor (out-of-range bytes read
as 0; the C++ `memcpy` would read whatever lies there). -/
def RBuf.readU32LE (b : RBuf) : Nat :=
  b.data.getD b.pos 0 + 256 * b.data.getD (b.pos + 1) 0 +
    65536 * b.data.getD (b.pos + 2) 0 + 16777216 * b.data.getD (b.pos + 3) 0

/-- `Read<std::string>` from `ros.h`: check 4 bytes, read the length
prefix, check `size` bytes (without having advanced past the prefix),
then copy `size` bytes from `addr_ + 4` and advance by `4 + size`.
Bytes the `memcpy` takes from beyond the buffer are modelled as 0. -/
def rosReadString (b : RBuf) : Except RosError (List Nat × RBuf) :=
  if b.check 4 then
    let size := b.readU32LE
    if b.check size then
      .ok ((List.range size).map (fun i => b.data.getD (b.pos + 4 + i) 0),
        ⟨b.data, b.pos + 4 + size⟩)
    else .error .truncated
  else .error .truncated

/-- A write-side `Buffer`: whether it owns its memory, its allocated
size (`size_`) and the bytes used so far (`addr_ - start_`). -/
structure WBuf where
  owned : Bool
  size : Nat
  used : Nat
deriving DecidableEq, Repr

/-- `Buffer::HasSpaceFor(n)`: if the write cursor plus `n` passes the
end, an owned buffer doubles its allocation (once) and reports success;
a borrowed buffer reports an error. -/
def hasSpaceFor (b : WBuf) (n : Nat) : Except RosError WBuf :=
  if b.size < b.used + n then
    if b.owned then .ok { b with size := b.size * 2 }
    else .error .overflow
  else .ok b

/-! ### Protobuf wire codec

Modelled from the spec: the repository's `sato/runtime/protobuf.h`
(class `ProtoBuffer`, its varint/tag/length-delimited helpers and
`SkipTag`) is not among the sources; only its callers are.  The
definitions below follow spec §4.1: little-endian base-128 varints with
the high bit as continuation, tags `(field_number << 3) | wire_type`,
length-delimited as a length varint followed by the body, `SkipTag` per
wire type, and the error taxonomy `Truncated` / `MalformedVarint` /
`UnsupportedFeature`. -/

/-- Protobuf codec error conditions (spec §4.1/§7).  `outOfFuel` is the
shallow embedding's bound for loops the C++ runs on cursors. -/
inductive ProtoError
  | truncated
  | malformedVarint
  | unsupportedFeature
  | outOfFuel
deriving DecidableEq, Repr

/-- Varint encoding, little-endian base-128 (fuel covers 64-bit
values). -/
def varintEncAux : Nat → Nat → List Nat
  | 0, n => [n % 128]
  | fuel + 1, n => if n < 128 then [n] else (n % 128 + 128) :: varintEncAux fuel (n / 128)

def varintEnc (n : Nat) : List Nat := varintEncAux 9 n

/-- Varint decoding; at most 10 bytes (a longer continuation chain is
`MalformedVarint` per the spec). -/
def varintDecAux : Nat → List Nat → Except ProtoError (Nat × List Nat)
  | 0, _ => .error .malformedVarint
  | _ + 1, [] => .error .truncated
  | fuel + 1, b :: rest =>
    if b < 128 then .ok (b, rest)
    else (varintDecAux fuel rest).map (fun p => (b % 128 + 128 * p.1, p.2))

/-- `ProtoBuffer::DeserializeVarint` on the remaining buffer bytes. -/
def deserializeVarint (l : List Nat) : Except ProtoError (Nat × List Nat) :=
  varintDecAux 10 l

/-- `ProtoBuffer::VarintSize`: the exact byte count a serialization
will produce. -/
def varintSize (n : Nat) : Nat := (varintEnc n).length

/-- A tag is `(field_number << 3) | wire_type`, varint-encoded. -/
def serializeTag (num wt : Nat) : List Nat := varintEnc (num * 8 + wt)

/-- `ProtoBuffer::TagSize`. -/
def tagSize (num wt : Nat) : Nat := (serializeTag num wt).length

/-- `ProtoBuffer::LengthDelimitedSize`: tag plus length varint plus
body. -/
def lengthDelimitedSize (num len : Nat) : Nat :=
  tagSize num 2 + varintSize len + len

/-- `ProtoBuffer::SerializeVarint`: tag with wire type 0, then the
value varint. -/
def serializeVarintField (num v : Nat) : List Nat :=
  serializeTag num 0 ++ varintEnc v

/-- `ProtoBuffer::SerializeLengthDelimitedHeader`: tag with wire type
2, then the length varint. -/
def serializeLengthDelimitedHeader (num len : Nat) : List Nat :=
  serializeTag num 2 ++ varintEnc len

/-- `ProtoBuffer::DeserializeLengthDelimited`: a length varint followed
by that many body bytes; `Truncated` if the buffer ends first. -/
def deserializeLengthDelimited (l : List Nat) :
    Except ProtoError (List Nat × List Nat) :=
  deserializeVarint l |>.bind fun p =>
    if p.1 ≤ p.2.length then .ok (p.2.take p.1, p.2.drop p.1)
    else .error .truncated

/-- `ProtoBuffer::SkipTag`: advance past an unknown field's value
according to the tag's wire type; groups and unknown wire types fail. -/
def skipTag (tag : Nat) (l : List Nat) : Except ProtoError (List Nat) :=
  match tag % 8 with
  | 0 => (deserializeVarint l).map (fun p => p.2)
  | 1 => if 8 ≤ l.length then .ok (l.drop 8) else .error .truncated
  | 2 => (deserializeLengthDelimited l).map (fun p => p.2)
  | 5 => if 4 ≤ l.length then .ok (l.drop 4) else .error .truncated
  | _ => .error .unsupportedFeature

/-! ### PrimitiveVectorField (src/sato/runtime/vectors.h)

The instantiation modelled is `PrimitiveVectorField<uint32_t, false,
false, Packed>` — a repeated unsigned varint field, the packed and the
unpacked variant.  `values_` is a `List Nat`; `present_`, inherited
from `Field`, starts false and (as in the source) is never touched by
the vector code. -/

/-- The `while (!sub_buffer.Eof())` loop of the packed
`ParseProto`: decode varints until the span is exhausted, appending
each to `values_`. -/
def decodeAllVarintsAux : Nat → List Nat → List Nat → Except ProtoError (List Nat)
  | _, acc, [] => .ok acc
  | 0, _, _ => .error .outOfFuel
  | fuel + 1, acc, l =>
    deserializeVarint l |>.bind fun p =>
      decodeAllVarintsAux fuel (acc ++ [p.1]) p.2

/-- `PrimitiveVectorField::ParseProto`, `Packed = true` branch: read
one length-delimited run and decode every varint in it. -/
def pvParseProtoPacked (values : List Nat) (l : List Nat) :
    Except ProtoError (List Nat × List Nat) :=
  deserializeLengthDelimited l |>.bind fun p =>
    (decodeAllVarintsAux p.1.length values p.1).map fun vs => (vs, p.2)

/-- `PrimitiveVectorField::ParseProto`, `Packed = false` branch: read a
single varint and append it. -/
def pvParseProtoUnpacked (values : List Nat) (l : List Nat) :
    Except ProtoError (List Nat × List Nat) :=
  deserializeVarint l |>.map fun p => (values ++ [p.1], p.2)

/-- `PrimitiveVectorField::WriteProto`, `Packed = true`: nothing when
empty, else one length-delimited header over the summed element varint
sizes followed by the raw varints. -/
def pvWriteProtoPacked (num : Nat) (values : List Nat) : List Nat :=
  if values.isEmpty then []
  else
    serializeLengthDelimitedHeader num
        (values.foldl (fun a v => a + varintSize v) 0) ++
      (values.map varintEnc).flatten

/-- `PrimitiveVectorField::WriteProto`, `Packed = false`: one full
tag+varint per element (nothing when empty). -/
def pvWriteProtoUnpacked (num : Nat) (values : List Nat) : List Nat :=
  (values.map (serializeVarintField num)).flatten

/-- `PrimitiveVectorField::SerializedProtoSize`, `Packed = false`
branch, exactly as in the source: it sums tag+varint per element and
then returns `LengthDelimitedSize(Number(), length)` over that sum. -/
def pvSerializedProtoSizeUnpacked (num : Nat) (values : List Nat) : Nat :=
  if values.isEmpty then 0
  else
    lengthDelimitedSize num
      (values.foldl (fun a v => a + (tagSize num 0 + varintSize v)) 0)

/-! ### A generated message with one packed repeated field

The code `MessageGenerator::GenerateProtoToROS` emits for the schema
`message M1 { repeated uint32 v = 4; }` (proto3, hence packed):
`ParseProto` loops over tags, shifts out the field number, dispatches
field 4 to the vector's `ParseProto` and skips unknown tags;
`WriteProto` (from `GenerateROSToProto`) guards every slot — the
repeated one included — with `IsPresent()`. -/

structure M1 where
  v : List Nat
  vPresent : Bool
deriving DecidableEq, Repr

def m1Init : M1 := ⟨[], false⟩

/-- The generated `M1::ParseProto` tag-dispatch loop (fuel bounds the
cursor loop; each iteration consumes at least one byte). -/
def m1ParseLoop : Nat → M1 → List Nat → Except ProtoError M1
  | _, m, [] => .ok m
  | 0, _, _ => .error .outOfFuel
  | fuel + 1, m, l =>
    deserializeVarint l |>.bind fun (tag, rest) =>
      if tag / 8 = 4 then
        pvParseProtoPacked m.v rest |>.bind fun (vs, rest') =>
          m1ParseLoop fuel ⟨vs, m.vPresent⟩ rest'
      else
        skipTag tag rest |>.bind fun rest' => m1ParseLoop fuel m rest'

def m1ParseProto (l : List Nat) : Except ProtoError M1 :=
  m1ParseLoop (l.length + 1) m1Init l

/-- The generated `M1::WriteProto`: the slot is written only when
`IsPresent()` holds. -/
def m1WriteProto (m : M1) : List Nat :=
  if m.vPresent then pvWriteProtoPacked 4 m.v else []

/-! ### A generated message with one scalar field and the populated flag

For the schema `message S { int32 x = 1; }` the generated `ParseProto`
dispatches field 1 to `Int32Field::ParseProto` (src/sato/runtime/
fields.h), which stores the value and sets `present_`.  The `Message`
base class (src/sato/runtime/message.h) carries `populated_`, default
false, with `IsPopulated`/`SetPopulated` accessors; the generated code
contains no reference to either. -/

structure SMsg where
  x : Nat
  xPresent : Bool
  populated : Bool
deriving DecidableEq, Repr

def sMsgInit : SMsg := ⟨0, false, false⟩

/-- The generated `S::ParseProto` loop: note that `populated` is
neither consulted nor assigned, exactly as in the emitted code. -/
def sParseLoop : Nat → SMsg → List Nat → Except ProtoError SMsg
  | _, m, [] => .ok m
  | 0, _, _ => .error .outOfFuel
  | fuel + 1, m, l =>
    deserializeVarint l |>.bind fun (tag, rest) =>
      if tag / 8 = 1 then
        deserializeVarint rest |>.bind fun (v, rest') =>
          sParseLoop fuel ⟨v, true, m.populated⟩ rest'
      else
        skipTag tag rest |>.bind fun rest' => sParseLoop fuel m rest'

def sParseProto (m : SMsg) (l : List Nat) : Except ProtoError SMsg :=
  sParseLoop (l.length + 1) m l

/-! ### The field-table construction and the emitted slot order
(src/sato/compiler/message_gen.cc)

`CompileFields` walks the schema's fields in declaration order: a field
belonging to a oneof is skipped from `fields_` (its `UnionInfo` is
created on the first member and appended to `fields_in_order_`); other
fields go into both `fields_` and `fields_in_order_`.  The emitted
`WriteROS` / `ParseROS` bodies iterate `fields_` and then `unions_`;
`GenerateROSMessage` iterates `fields_` only. -/

/-- A schema field declaration as the generator sees it: name, field
number, its ROS type string, and the containing oneof if any. -/
structure FieldDecl where
  name : String
  number : Nat
  rosType : String
  oneofName : Option String
deriving DecidableEq, Repr

/-- `fields_` after `CompileFields`: the non-oneof fields in
declaration order. -/
def compiledFields (decls : List FieldDecl) : List FieldDecl :=
  decls.filter (fun f => f.oneofName.isNone)

/-- The oneof groups in order of first appearance (one `UnionInfo` per
oneof, created on its first member). -/
def compiledUnionNames (decls : List FieldDecl) : List String :=
  decls.foldl
    (fun acc f =>
      match f.oneofName with
      | none => acc
      | some u => if u ∈ acc then acc else acc ++ [u])
    []

/-- A slot of the generated message: a regular field or a oneof
group. -/
inductive Slot
  | regular (name : String)
  | group (oneofName : String)
deriving DecidableEq, Repr

/-- The slot order the emitted `WriteROS` and `ParseROS` actually use:
every entry of `fields_`, then every entry of `unions_`. -/
def generatedSlotOrder (decls : List FieldDecl) : List Slot :=
  (compiledFields decls).map (fun f => .regular f.name) ++
    (compiledUnionNames decls).map .group

/-- The declaration order with each oneof at the position of its first
member — the order `fields_in_order_` is built in (and the order the
spec states). -/
def schemaSlotOrder (decls : List FieldDecl) : List Slot :=
  (decls.foldl
      (fun (acc : List Slot × List String) f =>
        match f.oneofName with
        | none => (acc.1 ++ [.regular f.name], acc.2)
        | some u =>
          if u ∈ acc.2 then acc else (acc.1 ++ [.group u], acc.2 ++ [u]))
      ([], [])).1

/-- `MessageGenerator::GenerateROSMessage`: the companion `.msg` text
is one `<ros_type> <name>` line per entry of `fields_` (the
`ros_member_name` is the member name with its trailing underscore
removed, i.e. the schema field name). -/
def rosMessageContent (decls : List FieldDecl) : String :=
  ((compiledFields decls).map (fun f => f.rosType ++ " " ++ f.name ++ "\n")).foldl
    (· ++ ·) ""

/-- `MessageGenerator::GenerateROSMessage`: the name passed to
`zip_file_add` is the message's short name with the `.msg` suffix. -/
def messageZipFilename (shortName : String) : String := shortName ++ ".msg"

/-- `AddFileToZip` (src/sato/compiler/zip_utils.cc): split the full
message name at its last dot, replace dots with underscores in the
directory part and place the file under `msg/`.  (When there is no dot,
`rfind` returns `npos` and both `substr` calls yield the whole
string.) -/
def addFileToZipFilename (fullMessageName : String) : String :=
  let cs := fullMessageName.toList
  let base := (cs.reverse.takeWhile (fun c => c ≠ '.')).reverse
  let dir := if base.length = cs.length then cs
    else cs.take (cs.length - base.length - 1)
  String.mk (dir.map (fun c => if c = '.' then '_' else c)) ++ "/msg/" ++
    String.mk base ++ ".msg"

/-! ## Theorems -/

/-! ### Helper lemmas for the zero-compression round trip -/

theorem encodePut_from (l : List Nat) :
    ∀ out z, ((l.foldl putByte (out, z)).1 ++ flushZeroes (l.foldl putByte (out, z)).2)
      = out ++ encAux l z := by
  induction l with
  | nil => intro out z; simp [List.foldl, encAux]
  | cons ch rest ih =>
    intro out z
    by_cases h0 : ch = 0
    · subst h0
      by_cases hz : z = kMaxZeroes
      · simp [List.foldl, putByte, hz, encAux, ih, List.append_assoc]
      · simp [List.foldl, putByte, hz, encAux, ih]
    · by_cases hm : ch = kZeroMarker
      · subst hm
        simp [List.foldl, putByte, h0, encAux, ih, List.append_assoc, kZeroMarker]
      · simp [List.foldl, putByte, h0, hm, encAux, ih, List.append_assoc]

theorem getByte_pending (l : List Nat) (d : Nat) :
    getByte (l, d + 1) = some (0, (l, d)) := by
  cases l <;> rfl

theorem getByte_cons (c : Nat) (h : ¬ c = kZeroMarker) (rest : List Nat) :
    getByte (c :: rest, 0) = some (c, (rest, 0)) := by
  simp [getByte, h]

theorem getByte_marker_run (c2 : Nat) (h : ¬ c2 = kZeroMarker) (r2 : List Nat) :
    getByte (kZeroMarker :: c2 :: r2, 0) = some (0, (r2, c2 + 1)) := by
  simp [getByte, h]

theorem getByte_marker_lit (r2 : List Nat) :
    getByte (kZeroMarker :: kZeroMarker :: r2, 0) = some (kZeroMarker, (r2, 0)) := by
  simp [getByte]

theorem getBytes_succ_of_getByte {st : List Nat × Nat} {b : Nat}
    {st' : List Nat × Nat} (h : getByte st = some (b, st')) (n : Nat) :
    getBytes (n + 1) st = (getBytes n st').map (fun p => (b :: p.1, p.2)) := by
  simp only [getBytes, h]
  cases hh : getBytes n st' <;> simp [hh]

/-- Pending zeroes are delivered before the input is consumed again. -/
theorem getBytes_pending (d : Nat) :
    ∀ n l, getBytes (d + n) (l, d)
      = (getBytes n (l, 0)).map (fun p => (List.replicate d 0 ++ p.1, p.2)) := by
  induction d with
  | zero =>
    intro n l
    cases h : getBytes n (l, 0) <;> simp [h]
  | succ d ih =>
    intro n l
    have harith : d + 1 + n = (d + n) + 1 := by omega
    rw [harith]
    simp only [getBytes, getByte, ih]
    cases h : getBytes n (l, 0) <;> simp [h, List.replicate_succ]

/-- Reading through a flushed run of `z ≤ kMaxZeroes` zeroes yields
exactly `z` zero bytes and then continues with the tail. -/
theorem getBytes_flush (z : Nat) (hz : z ≤ kMaxZeroes) :
    ∀ n tail, getBytes (z + n) (flushZeroes z ++ tail, 0)
      = (getBytes n (tail, 0)).map (fun p => (List.replicate z 0 ++ p.1, p.2)) := by
  match z with
  | 0 =>
    intro n tail
    cases h : getBytes n (tail, 0) <;> simp [flushZeroes, h]
  | 1 =>
    intro n tail
    have h1 : 1 + n = n + 1 := by omega
    rw [h1]
    have hfl : flushZeroes 1 ++ tail = 0 :: tail := by simp [flushZeroes]
    rw [hfl, getBytes_succ_of_getByte (getByte_cons 0 (by simp [kZeroMarker]) tail) n]
    cases h : getBytes n (tail, 0) <;> simp [h, List.replicate_succ]
  | z + 2 =>
    intro n tail
    have hle : z ≤ 249 := by simp [kMaxZeroes, kZeroMarker] at hz; omega
    have h1 : z + 2 + n = ((z + 1) + n) + 1 := by omega
    rw [h1]
    have hfl : flushZeroes (z + 2) ++ tail = kZeroMarker :: z :: tail := by
      simp [flushZeroes]
    rw [hfl,
      getBytes_succ_of_getByte (getByte_marker_run z (by simp [kZeroMarker]; omega) tail)
        ((z + 1) + n),
      getBytes_pending (z + 1) n tail]
    cases h : getBytes n (tail, 0) <;> simp [h, List.replicate_succ]

/-- Decoding the encoder's output with pending count `z` recovers `z`
zeroes followed by the remaining input. -/
theorem decode_encAux :
    ∀ (l : List Nat) (z : Nat), z ≤ kMaxZeroes →
      getBytes (z + l.length) (encAux l z, 0)
        = some (List.replicate z 0 ++ l, ([], 0)) := by
  intro l
  induction l with
  | nil =>
    intro z hz
    have h0 : encAux [] z = flushZeroes z ++ [] := by simp [encAux]
    rw [List.length_nil, h0, getBytes_flush z hz 0 []]
    simp [getBytes]
  | cons ch rest ih =>
    intro z hz
    by_cases h0 : ch = 0
    · subst h0
      by_cases hmax : z = kMaxZeroes
      · subst hmax
        have harith : kMaxZeroes + (0 :: rest).length
            = kMaxZeroes + (1 + rest.length) := by simp; omega
        have henc : encAux (0 :: rest) kMaxZeroes
            = flushZeroes kMaxZeroes ++ encAux rest 1 := by
          simp [encAux]
        rw [harith, henc, getBytes_flush kMaxZeroes (le_refl _) (1 + rest.length) _,
          ih 1 (by simp [kMaxZeroes, kZeroMarker])]
        simp [List.replicate_succ]
      · have henc : encAux (0 :: rest) z = encAux rest (z + 1) := by
          simp [encAux, hmax]
        have harith : z + (0 :: rest).length = (z + 1) + rest.length := by
          simp; omega
        rw [harith, henc, ih (z + 1) (by simp [kMaxZeroes, kZeroMarker] at *; omega)]
        rw [show List.replicate (z + 1) 0 ++ rest
            = List.replicate z 0 ++ 0 :: rest from by
          rw [List.replicate_succ']; simp]
    · by_cases hm : ch = kZeroMarker
      · subst hm
        have henc : encAux (kZeroMarker :: rest) z
            = flushZeroes z ++ ([kZeroMarker, kZeroMarker] ++ encAux rest 0) := by
          simp [encAux, kZeroMarker]
        have harith : z + (kZeroMarker :: rest).length
            = z + (rest.length + 1) := by simp
        rw [harith, henc, getBytes_flush z hz (rest.length + 1) _]
        simp only [List.cons_append, List.nil_append]
        rw [getBytes_succ_of_getByte (getByte_marker_lit (encAux rest 0)) rest.length]
        have hrest := ih 0 (by simp)
        rw [show (0 : Nat) + rest.length = rest.length from by omega] at hrest
        rw [hrest]
        simp
      · have henc : encAux (ch :: rest) z
            = flushZeroes z ++ ([ch] ++ encAux rest 0) := by
          simp [encAux, h0, hm]
        have harith : z + (ch :: rest).length = z + (rest.length + 1) := by simp
        rw [harith, henc, getBytes_flush z hz (rest.length + 1) _]
        simp only [List.cons_append, List.nil_append]
        rw [getBytes_succ_of_getByte (getByte_cons ch hm (encAux rest 0)) rest.length]
        have hrest := ih 0 (by simp)
        rw [show (0 : Nat) + rest.length = rest.length from by omega] at hrest
        rw [hrest]
        simp

/-! ### Claim theorems -/

/-- Claim C1.  The claim states that a message parsed by the generated
`ParseProto` from Protobuf bytes `b` without unknown fields writes back
exactly `b`.  It fails on the code: for the bytes `22 03 01 02 03`
(packed repeated field 4 = `[1,2,3]`), `ParseProto` fills the vector
but never sets the slot's `present_` flag, and the generated
`WriteProto` guards every slot — repeated ones included — with
`IsPresent()`, so writing back yields the empty byte string instead of
the original five bytes. -/
theorem claim1_roundtrip_drops_repeated_field :
    m1ParseProto [0x22, 3, 1, 2, 3] = .ok ⟨[1, 2, 3], false⟩ ∧
      m1WriteProto ⟨[1, 2, 3], false⟩ = [] ∧
      ([] : List Nat) ≠ [0x22, 3, 1, 2, 3] :=
  ⟨rfl, rfl, by decide⟩

/-- Claim C2.  The claim states that `parse_proto` accepts both the
packed and the unpacked wire form for a repeated primitive field
regardless of the declared packing.  It fails on the code: the
generated dispatch ignores the wire type and
`PrimitiveVectorField<…, Packed = true>::ParseProto` always reads a
length-delimited run, so the unpacked encoding `20 01` (tag of field 4
with wire type 0, value 1) is misread as a length and the parse
returns `Truncated` instead of the element sequence `[1]`. -/
theorem claim2_packed_field_rejects_unpacked_wire :
    m1ParseProto [0x20, 1] = .error .truncated := rfl

/-- Claim C3.  The claim states `len(write_proto) =
serialized_proto_size` for every field slot, in particular unpacked
repeated primitives.  It fails on the code: for an unpacked repeated
field (number 4) holding `[1]`, `SerializedProtoSize` wraps the summed
per-element bytes in a further `LengthDelimitedSize`, reporting 4,
while `WriteProto` emits the 2 bytes `20 01`. -/
theorem claim3_unpacked_size_exceeds_written_bytes :
    pvSerializedProtoSizeUnpacked 4 [1] = 4 ∧
      (pvWriteProtoUnpacked 4 [1]).length = 2 ∧
      pvSerializedProtoSizeUnpacked 4 [1] ≠ (pvWriteProtoUnpacked 4 [1]).length := by
  decide

/-- Claim C4.  The claim states that a second `parse_proto` on a
populated message is refused with `AlreadyPopulated` and that a
successful parse sets the populated flag.  It fails on the code: the
generated `ParseProto` neither consults nor assigns `populated_`, so
parsing `08 01` into a fresh message leaves the flag false and a
second parse of the same bytes succeeds again. -/
theorem claim4_double_parse_not_refused :
    sParseProto sMsgInit [8, 1] = .ok ⟨1, true, false⟩ ∧
      sParseProto ⟨1, true, false⟩ [8, 1] = .ok ⟨1, true, false⟩ :=
  ⟨rfl, rfl⟩

/-- The schema used by the C5 and C7 counterexamples:
`oneof u { int32 u1a = 1; } int32 x = 2;` — a oneof declared before a
regular field. -/
def c5Schema : List FieldDecl :=
  [⟨"u1a", 1, "int32", some "u"⟩, ⟨"x", 2, "int32", none⟩]

/-- Claim C5.  The claim states that the slot order used by the
generated `write_ros`/`parse_ros` matches the schema declaration
order, with each oneof at the position of its first member.  It fails
on the code: the emitted bodies iterate `fields_` and then `unions_`,
so for a schema declaring the oneof first the generated order is the
regular field followed by the oneof, not the reverse. -/
theorem claim5_write_ros_slot_order_differs_from_schema :
    generatedSlotOrder c5Schema = [.regular "x", .group "u"] ∧
      schemaSlotOrder c5Schema = [.group "u", .regular "x"] ∧
      generatedSlotOrder c5Schema ≠ schemaSlotOrder c5Schema := by
  decide

/-- Claim C6.  The claim states that a ROS string read returns
`Truncated` whenever fewer than `4 + length` bytes remain.  It fails
on the code: `Read<std::string>` checks `Check(4)` and then
`Check(size)` before advancing past the 4-byte prefix, so on the
4-byte buffer `04 00 00 00` (length prefix 4, empty body) both checks
pass and the read reports success while copying 4 bytes from beyond
the buffer. -/
theorem claim6_short_string_read_succeeds :
    rosReadString ⟨[4, 0, 0, 0], 0⟩ = .ok ([0, 0, 0, 0], ⟨[4, 0, 0, 0], 8⟩) ∧
      ([4, 0, 0, 0] : List Nat).length < 4 + 4 :=
  ⟨rfl, by decide⟩

/-- Claim C7.  The claim states that the companion `.msg` text for a
message with a oneof contains an `int32 <oneof>_discriminator` line
followed by one line per member.  It fails on the code:
`GenerateROSMessage` iterates only `fields_`, which excludes every
oneof member, so for the C5 schema the emitted text is just
`int32 x\n` with no discriminator or member lines at all. -/
theorem claim7_msg_text_omits_oneof_lines :
    rosMessageContent c5Schema = "int32 x\n" ∧
      rosMessageContent c5Schema ≠ "int32 u_discriminator\nint32 u1a\nint32 x\n" := by
  decide

/-- Claim C8.  The claim states that each message's `.msg` zip entry is
named `<package_path>/msg/<MessageShortName>.msg`.  It fails on the
code: `GenerateROSMessage` passes the bare `<Name>.msg` to
`zip_file_add`, while the unused helper `AddFileToZip` is the one that
would build the claimed path. -/
theorem claim8_zip_entry_lacks_package_path :
    messageZipFilename "TestMessage" = "TestMessage.msg" ∧
      addFileToZipFilename "foo.bar.TestMessage" = "foo_bar/msg/TestMessage.msg" ∧
      messageZipFilename "TestMessage" ≠ addFileToZipFilename "foo.bar.TestMessage" := by
  decide

/-- Claim C9.  The claim states that an `Ok` from `HasSpaceFor(n)` on
an owned buffer guarantees `n` writable bytes, even when `n` exceeds
twice the current size.  It fails on the code: the buffer is doubled
only once and success is reported unconditionally, so an empty owned
buffer of size 16 asked for 100 bytes answers `Ok` with only 32 bytes
of capacity. -/
theorem claim9_has_space_for_ok_without_space :
    hasSpaceFor ⟨true, 16, 0⟩ 100 = .ok ⟨true, 32, 0⟩ ∧ ¬ (100 ≤ 32 - 0) :=
  ⟨rfl, by decide⟩

/-- Claim C10.  Writing any byte sequence with `Buffer::Put`, flushing
once with `FlushZeroes`, and reading the same number of bytes back
with `Buffer::Get` returns the original sequence, consuming the whole
encoding: zero runs are compressed behind the `0xfa` marker, a literal
`0xfa` is escaped as `0xfa 0xfa`, and the compression round-trips
exactly. -/
theorem claim10_put_get_roundtrip (l : List Nat) (_h : ∀ b ∈ l, b < 256) :
    getBytes l.length (encodePut l, 0) = some (l, ([], 0)) := by
  have he : encodePut l = encAux l 0 := by
    have hfrom := encodePut_from l [] 0
    simpa [encodePut] using hfrom
  rw [he]
  have hdec := decode_encAux l 0 (by simp [kMaxZeroes, kZeroMarker])
  simpa using hdec

/-- Witness for claim C10 at the concrete sequence
`[0, 0, 250, 7, 0]`, which exercises a zero run, the escaped marker
byte and a trailing zero. -/
theorem claim10_put_get_roundtrip_witness :
    getBytes ([0, 0, 250, 7, 0] : List Nat).length (encodePut [0, 0, 250, 7, 0], 0)
      = some ([0, 0, 250, 7, 0], ([], 0)) :=
  claim10_put_get_roundtrip [0, 0, 250, 7, 0] (by decide)

end Sato
